import Mathlib

/-!
Verification of the `portier-go` repository: a shallow embedding of the
in-memory store (store.go), the fetch helper (fetch.go), the URL helpers
(util.go) and the client orchestration (client.go), with theorems about the
behaviour described in the specification.

Modelling conventions:
* Go maps keyed by strings become `Finset String` or association lists.
* The cryptographic RNG behind `GenerateNonce` is an oracle: the 16 random
  bytes are passed in as an argument (each byte a `Nat`, reduced mod 256
  where bit operations happen).
* `time.Now()` is an oracle passed as a `Nat` of nanoseconds; `time.Duration`
  values that can overflow are modelled as `Int` with explicit wrapping at
  2^63 where the Go code multiplies durations.
* Network and JSON decoding results are oracles (`HTTPResponse`,
  `FetchOutcome`), because the repository treats HTTP transport and JSON
  as external collaborators.
* The jwx JWT library is an external collaborator: signature and time-claim
  validation become boolean oracles, while the issuer and audience checks
  that client.go configures through jwt.WithIssuer / jwt.WithAudience are
  modelled structurally on a `Token` record.
-/

namespace Portier

/-! ### Nonce store (store.go, `memoryStore.NewNonce` / `memoryStore.ConsumeNonce`)

The Go store keeps `map[string]struct{}` whose keys are
`fmt.Sprintf("%s:%s", nonce, email)`; we keep the corresponding
`Finset String` of keys. -/

/-- The map key `fmt.Sprintf("%s:%s", nonce, email)` used by the memory store. -/
def pairKey (nonce email : String) : String := nonce ++ ":" ++ email

/-- Result of `ConsumeNonce`: either the updated nonce set (nil error) or the
`InvalidNonce` error. -/
inductive ConsumeResult
  | ok (nonces : Finset String)
  | invalidNonce
  deriving DecidableEq

/-- Go `memoryStore.NewNonce`: generate a nonce (here supplied by the RNG oracle
as the `nonce` argument), store the pair key, return the nonce. -/
def NewNonce (nonces : Finset String) (nonce email : String) :
    Finset String × String :=
  (insert (pairKey nonce email) nonces, nonce)

/-- Go `memoryStore.ConsumeNonce`: if the pair key is absent return the
`InvalidNonce` error, otherwise delete it and return the updated set. -/
def ConsumeNonce (nonces : Finset String) (nonce email : String) : ConsumeResult :=
  if pairKey nonce email ∈ nonces then
    .ok (nonces.erase (pairKey nonce email))
  else
    .invalidNonce

/-- One call against the nonce side of the store, with the RNG oracle inlined
into the `issue` operation. -/
inductive StoreOp
  | issue (nonce email : String)
  | consume (nonce email : String)

/-- Effect of one store call on the set of stored pair keys. -/
def applyOp (nonces : Finset String) : StoreOp → Finset String
  | .issue nonce email => (NewNonce nonces nonce email).1
  | .consume nonce email =>
    match ConsumeNonce nonces nonce email with
    | .ok nonces2 => nonces2
    | .invalidNonce => nonces

/-- Run a sequence of store calls from a given state. -/
def runFrom (nonces : Finset String) : List StoreOp → Finset String
  | [] => nonces
  | op :: rest => runFrom (applyOp nonces op) rest

/-- State of the nonce map after a sequence of calls on a fresh store. -/
def runOps (ops : List StoreOp) : Finset String := runFrom ∅ ops

/-- The (nonce, email) pairs issued by `NewNonce` during a call sequence. -/
def issued : List StoreOp → List (String × String)
  | [] => []
  | .issue nonce email :: rest => (nonce, email) :: issued rest
  | .consume _ _ :: rest => issued rest

/-! ### Token claims and `client.Verify` (client.go lines 177-226) -/

/-- A decoded JSON claim value, as jwx hands it to `token.Get`. Only the
`str` shape survives the Go type assertion `.(string)`. -/
inductive ClaimValue
  | str (s : String)
  | num (x : Int)
  | boolVal (b : Bool)
  | null
  | arr
  | obj
  deriving DecidableEq

/-- The claim map of a token, as an association list (keys unique in JWTs;
lookup takes the first binding like a Go map holds one). -/
abbrev Claims := List (String × ClaimValue)

/-- Go `token.Get(name)`: the claim value, if the claim is present. -/
def claimGet : Claims → String → Option ClaimValue
  | [], _ => none
  | (k, v) :: rest, name => if k = name then some v else claimGet rest name

/-- Remove a claim entirely (used to compare present-but-non-string claims
with absent ones). -/
def eraseClaim (cs : Claims) (name : String) : Claims :=
  cs.filter (fun p => !(p.1 == name))

/-- The Go idiom `val, _ := token.Get(name); s, _ := val.(string)`:
a missing claim or a non-string value both give `""`. -/
def goStringAssert : Option ClaimValue → String
  | some (.str s) => s
  | _ => ""

/-- The error classes `client.Verify` can report after `jwt.Parse` succeeds,
plus the `jwt.Parse` failure class itself. -/
inductive VerifyError
  | nonceMissing
  | emailMissing
  | invalidSession
  | tokenInvalid
  deriving DecidableEq

/-- Outcome of `Verify`: the verified email, or an error. -/
inductive VOut
  | ok (email : String)
  | err (e : VerifyError)
  deriving DecidableEq

/-- Result of a `Verify` run: the nonce set after the call, the outcome, and
how many times `store.ConsumeNonce` was invoked. -/
structure VerifyResult where
  nonces : Finset String
  out : VOut
  consumeCalls : Nat
  deriving DecidableEq

/-- The claim-processing tail of `client.Verify` (client.go lines 200-226),
entered once `jwt.Parse` has succeeded. -/
def verifyClaims (nonces : Finset String) (cs : Claims) : VerifyResult :=
  let nonce := goStringAssert (claimGet cs "nonce")
  if nonce = "" then ⟨nonces, .err .nonceMissing, 0⟩
  else
    let email := goStringAssert (claimGet cs "email")
    if email = "" then ⟨nonces, .err .emailMissing, 0⟩
    else
      let emailOrig0 := goStringAssert (claimGet cs "email_original")
      let emailOrig := if emailOrig0 = "" then email else emailOrig0
      match ConsumeNonce nonces nonce emailOrig with
      | .ok nonces2 => ⟨nonces2, .ok email, 1⟩
      | .invalidNonce => ⟨nonces, .err .invalidSession, 1⟩

/-- A parsed id_token as far as `Verify` inspects it: issuer, audience list
and the claim map. Signature and expiry checks stay boolean oracles. -/
structure Token where
  iss : String
  aud : List String
  claims : Claims
  deriving DecidableEq

/-! ### URLs (util.go) -/

/-- The fields of Go `net/url.URL` that the repository reads or writes.
`opq` is the `Opaque` field; `userinfo` the `User` field; `query` is the
decoded form of `RawQuery` (url.Values, as built by `q.Encode()`, which the
model keeps as the sorted key/value list instead of a percent-encoded
string). The derived `RawPath`/`RawFragment` encodings are not modelled
separately from `path`/`fragment`. -/
structure GoURL where
  scheme : String
  opq : String
  userinfo : Option String
  host : String
  path : String
  query : List (String × String)
  fragment : String
  forceQuery : Bool
  deriving DecidableEq

/-- Function `isOrigin` (util.go): a URL with a scheme and nothing else. -/
def isOrigin (u : GoURL) : Bool :=
  u.scheme != "" && u.userinfo.isNone && u.path == "" && !u.forceQuery &&
    u.query.isEmpty && u.fragment == ""

/-- Function `originOf` (util.go): the origin of an absolute URL. -/
def originOf (u : GoURL) : String :=
  if u.opq != "" then u.scheme ++ ":" ++ u.opq
  else u.scheme ++ "://" ++ u.host

/-- Go `url.URL.IsAbs`: the URL has a scheme. -/
def isAbs (u : GoURL) : Bool := u.scheme != ""

/-! ### Client construction (client.go, `NewClient`) -/

/-- The `Config` fields NewClient reads (the injected Store is passed
separately to the operations in this model). The leeway is in
nanoseconds, as Go `time.Duration` counts. -/
structure Config where
  broker : String
  redirectURI : String
  responseMode : String
  leeway : Nat
  deriving DecidableEq

/-- The `client` record after `NewClient` succeeds. -/
structure ClientS where
  broker : String
  brokerURL : GoURL
  redirectURI : String
  clientID : String
  responseMode : String
  leeway : Nat
  deriving DecidableEq

/-- Result of `NewClient`: a client or a construction error message. -/
inductive ClientResult
  | ok (c : ClientS)
  | err (msg : String)
  deriving DecidableEq

/-- Function `NewClient` (client.go lines 84-136). `urlParse` is the `net/url.Parse`
oracle: `none` models a parse error. -/
def NewClient (cfg : Config) (urlParse : String → Option GoURL) : ClientResult :=
  let broker := if cfg.broker = "" then "https://broker.portier.io" else cfg.broker
  let responseMode := if cfg.responseMode = "" then "form_post" else cfg.responseMode
  let leeway := if cfg.leeway = 0 then 180000000000 else cfg.leeway
  if cfg.redirectURI = "" then .err "RedirectURI not set"
  else if responseMode != "form_post" && responseMode != "fragment" then
    .err "invalid ResponseMode"
  else
    match urlParse broker with
    | none => .err "invalid broker"
    | some brokerURL =>
      if !isOrigin brokerURL then .err "invalid broker: URL is not an HTTP(S) origin"
      else
        match urlParse cfg.redirectURI with
        | none => .err "invalid redirect URI"
        | some redirectURL =>
          if !isAbs redirectURL then .err "invalid redirect URI: must be absolute"
          else .ok ⟨broker, brokerURL, cfg.redirectURI, originOf redirectURL,
                    responseMode, leeway⟩

/-- The call to `jwt.Parse` followed by the claim processing: client.go lines 188-226.
`sigOK` is the signature check against the fetched key set, `timeOK` the
exp/iat check within the leeway; `jwt.WithIssuer(client.broker)` and
`jwt.WithAudience(client.clientID)` are the structural checks. -/
def verifyFull (c : ClientS) (nonces : Finset String) (tok : Token)
    (sigOK timeOK : Bool) : VerifyResult :=
  if sigOK && timeOK && (tok.iss == c.broker) && tok.aud.contains c.clientID then
    verifyClaims nonces tok.claims
  else
    ⟨nonces, .err .tokenInvalid, 0⟩

/-! ### Nonce generation and `StartAuth` (util.go `GenerateNonce`,
client.go lines 149-175) -/

/-- The table `hextable` used by Go `encoding/hex`. -/
def hexTable : List Char := "0123456789abcdef".data

/-- One hex digit; callers always pass an index already reduced mod 16. -/
def hexDigit (n : Nat) : Char := hexTable.getD n '0'

/-- Go `hex.EncodeToString` on one byte: high nibble then low nibble. -/
def hexByte (b : Nat) : List Char := [hexDigit (b / 16 % 16), hexDigit (b % 16)]

/-- Go `hex.EncodeToString` on a byte slice. -/
def hexEncodeList : List Nat → List Char
  | [] => []
  | b :: rest => hexByte b ++ hexEncodeList rest

/-- Function `GenerateNonce` (util.go): hex-encode 16 bytes of RNG output. The RNG is
an oracle: the bytes are the argument. -/
def GenerateNonce (bytes : List Nat) : String := String.mk (hexEncodeList bytes)

/-- Go `client.StartAuth` after the discovery fetch has succeeded and
`authorization_endpoint` has parsed to `authURL` (client.go lines 155-174):
issue a nonce, store the pair, and return the endpoint URL with the query
replaced by the seven parameters (`q.Encode()` emits them sorted by key). -/
def startAuth (c : ClientS) (authURL : GoURL) (email : String)
    (bytes : List Nat) (nonces : Finset String) : Finset String × GoURL :=
  let res := NewNonce nonces (GenerateNonce bytes) email
  (res.1,
    { authURL with
      query := [("client_id", c.clientID), ("login_hint", email),
                ("nonce", res.2), ("redirect_uri", c.redirectURI),
                ("response_mode", c.responseMode),
                ("response_type", "id_token"), ("scope", "openid email")] })

/-! ### The fetch helper (fetch.go, `SimpleFetch`) -/

/-- Failure classes of `SimpleFetch`: transport error from `client.Get`,
non-200 HTTP status, or JSON decode error. -/
inductive FetchErr
  | transport
  | status (code : Nat)
  | decode
  deriving DecidableEq

/-- Outcome of `json.NewDecoder(res.Body).Decode(data)`: the decoded
document, or a decode error. -/
inductive DecodeOutcome (α : Type)
  | ok (doc : α)
  | failed
  deriving DecidableEq

/-- The network oracle for one `client.Get` call. -/
inductive HTTPResponse (α : Type)
  | failed
  | ok (statusCode : Nat) (cacheControl : String) (body : DecodeOutcome α)
  deriving DecidableEq

/-- Wrap an integer into the signed 64-bit range, as Go arithmetic on
`time.Duration` (an int64 of nanoseconds) does. -/
def int64wrap (x : Int) : Int :=
  (x + 9223372036854775808) % 18446744073709551616 - 9223372036854775808

/-- Go `time.Second` in nanoseconds. -/
def second : Int := 1000000000

/-- Constant `defaultMaxAge` (fetch.go): one minute. -/
def defaultMaxAge : Int := 60 * second

/-- Constant `defaultErrMaxAge` (fetch.go): three seconds. -/
def defaultErrMaxAge : Int := 3 * second

/-- Go regexp `\s`: space, tab, newline, form feed, carriage return. -/
def isSpaceCh (c : Char) : Bool :=
  c = ' ' || c = '\t' || c = '\n' || c = '\x0c' || c = '\r'

/-- Go regexp `\d`. -/
def isDigitCh (c : Char) : Bool := '0' ≤ c && c ≤ '9'

/-- Try to match `\s*=\s*(\d+)` (the tail of `maxAgeRe`) at the head of the
character list, returning the greedily captured digits. -/
def matchAfterKey (cs : List Char) : Option (List Char) :=
  match cs.dropWhile isSpaceCh with
  | '=' :: cs2 =>
    let ds := (cs2.dropWhile isSpaceCh).takeWhile isDigitCh
    if ds.isEmpty then none else some ds
  | _ => none

/-- Try to match `maxAgeRe` at the head of the character list. -/
def matchMaxAgeAt (cs : List Char) : Option (List Char) :=
  match cs with
  | 'm' :: 'a' :: 'x' :: '-' :: 'a' :: 'g' :: 'e' :: rest => matchAfterKey rest
  | _ => none

/-- Leftmost match of `maxAgeRe`, as `FindStringSubmatch` produces it. -/
def findMaxAgeDigits : List Char → Option (List Char)
  | [] => none
  | c :: rest =>
    match matchMaxAgeAt (c :: rest) with
    | some ds => some ds
    | none => findMaxAgeDigits rest

/-- Decimal value of a digit list. -/
def digitsToNat (ds : List Char) : Nat :=
  ds.foldl (fun acc c => 10 * acc + (c.toNat - 48)) 0

/-- The `max-age` value captured from a Cache-Control header by `maxAgeRe`,
before the `strconv.ParseInt` range check. -/
def parseMaxAge (s : String) : Option Nat :=
  (findMaxAgeDigits s.data).map digitsToNat

/-- What `SimpleFetch` returns: the cache lifespan (nanoseconds), the error,
and the decoded document that was written into `data` on success. -/
structure SimpleFetchResult (α : Type) where
  maxAge : Int
  err : Option FetchErr
  data : Option α
  deriving DecidableEq

/-- Function `SimpleFetch` (fetch.go lines 22-54) over the network oracle. The
`strconv.ParseInt` 64-bit range check and the int64 wrap-around of
`time.Duration(maxAgeInt) * time.Second` are modelled explicitly. -/
def SimpleFetch (resp : HTTPResponse α) : SimpleFetchResult α :=
  match resp with
  | .failed => ⟨defaultErrMaxAge, some .transport, none⟩
  | .ok statusCode cacheControl body =>
    if statusCode ≠ 200 then ⟨defaultErrMaxAge, some (.status statusCode), none⟩
    else
      match body with
      | .failed => ⟨defaultErrMaxAge, some .decode, none⟩
      | .ok doc =>
        let maxAge := defaultMaxAge
        let maxAge :=
          match parseMaxAge cacheControl with
          | some n =>
            if n < 9223372036854775808 then
              let parsed := int64wrap ((n : Int) * second)
              if parsed > maxAge then parsed else maxAge
            else maxAge
          | none => maxAge
        ⟨maxAge, none, some doc⟩

/-! ### The caching store (store.go, `memoryStore.Fetch`) -/

/-- A `cacheEntry`: the last decoded payload (`none` is the Go zero value of
a fresh entry), the last error, and the expiry instant in nanoseconds (the
zero `time.Time` of a fresh entry becomes `0`, which is never after
`time.Now()`). -/
structure CacheEntry (α : Type) where
  data : Option α
  err : Option FetchErr
  expires : Nat
  deriving DecidableEq

/-- The outcome the underlying `SimpleFetch` call would produce on this
refresh: its returned lifespan, error, and the content left in the
destination buffer. -/
structure FetchOutcome (α : Type) where
  maxAge : Nat
  err : Option FetchErr
  data : α
  deriving DecidableEq

/-- Observable result of one `memoryStore.Fetch` call: the cache afterwards,
the returned error, the data written back to the caller (only on a nil
error), and how many network fetches were performed. -/
structure FetchResult (α : Type) where
  cache : List (String × CacheEntry α)
  err : Option FetchErr
  data : Option α
  netCalls : Nat
  deriving DecidableEq

/-- Association-list lookup standing in for the Go cache map read. -/
def cacheLookup {α : Type} : List (String × CacheEntry α) → String → Option (CacheEntry α)
  | [], _ => none
  | (k, v) :: rest, url => if k = url then some v else cacheLookup rest url

/-- Association-list write standing in for the Go cache map write. -/
def cacheUpsert {α : Type} : List (String × CacheEntry α) → String → CacheEntry α →
    List (String × CacheEntry α)
  | [], url, e => [(url, e)]
  | (k, v) :: rest, url, e =>
    if k = url then (k, e) :: rest else (k, v) :: cacheUpsert rest url e

/-- Go `memoryStore.Fetch` (store.go lines 172-189): get or create the entry
(`getCacheEntry`), refresh it through `SimpleFetch` when the expiry has
passed, then hand back the stored data on a nil stored error. `now` models
`time.Now()` and `outcome` the `SimpleFetch` call that would run on a
refresh. -/
def memFetch {α : Type} (cache : List (String × CacheEntry α)) (url : String)
    (now : Nat) (outcome : FetchOutcome α) : FetchResult α :=
  let entry := (cacheLookup cache url).getD ⟨none, none, 0⟩
  if now < entry.expires then
    ⟨cacheUpsert cache url entry, entry.err,
      (match entry.err with | none => entry.data | some _ => none), 0⟩
  else
    let entry2 : CacheEntry α := ⟨some outcome.data, outcome.err, now + outcome.maxAge⟩
    ⟨cacheUpsert cache url entry2, entry2.err,
      (match entry2.err with | none => entry2.data | some _ => none), 1⟩

/-! ### Concrete fixtures used by witnesses -/

/-- Parse result of the default broker origin `https://broker.portier.io`. -/
def brokerOriginURL : GoURL := ⟨"https", "", none, "broker.portier.io", "", [], "", false⟩

/-- Parse result of the redirect URI `https://app.example/callback/path`. -/
def appRedirectURL : GoURL :=
  ⟨"https", "", none, "app.example", "/callback/path", [], "", false⟩

/-- Parse result of the authorization endpoint `https://idp.example/auth`. -/
def idpAuthURL : GoURL := ⟨"https", "", none, "idp.example", "/auth", [], "", false⟩

/-- The client built from the default broker and the redirect URI
`https://app.example/callback/path`. -/
def clientA : ClientS :=
  ⟨"https://broker.portier.io", brokerOriginURL, "https://app.example/callback/path",
    "https://app.example", "form_post", 180000000000⟩

/-! ### Helper lemmas -/

/-- Splitting at a separator absent from both left parts is injective. -/
theorem colon_split_inj (a : List Char) : ∀ (c b d : List Char),
    ':' ∉ a → ':' ∉ c → a ++ ':' :: b = c ++ ':' :: d → a = c ∧ b = d := by
  induction a with
  | nil =>
    intro c b d _ hc h
    cases c with
    | nil => simpa using h
    | cons y ys =>
      simp only [List.nil_append, List.cons_append, List.cons.injEq] at h
      obtain ⟨h1, _⟩ := h
      cases h1
      simp at hc
  | cons x xs ih =>
    intro c b d ha hc h
    cases c with
    | nil =>
      simp only [List.cons_append, List.nil_append, List.cons.injEq] at h
      obtain ⟨h1, _⟩ := h
      cases h1
      simp at ha
    | cons y ys =>
      simp only [List.cons_append, List.cons.injEq] at h
      obtain ⟨h1, h2⟩ := h
      cases h1
      have ha2 : ':' ∉ xs := fun hm => ha (List.mem_cons_of_mem _ hm)
      have hc2 : ':' ∉ ys := fun hm => hc (List.mem_cons_of_mem _ hm)
      obtain ⟨e1, e2⟩ := ih ys b d ha2 hc2 h2
      exact ⟨by rw [e1], e2⟩

/-- The underlying character list of `pairKey`. -/
theorem pairKey_data (a b : String) : (pairKey a b).data = a.data ++ ':' :: b.data := by
  show (a ++ ":" ++ b).data = _
  have h1 : (a ++ ":" ++ b).data = (a.data ++ [':']) ++ b.data := rfl
  simp [h1]

/-- The key builder `pairKey` is injective as long as the nonce parts are colon-free. -/
theorem pairKey_inj {a b c d : String} (ha : ':' ∉ a.data) (hc : ':' ∉ c.data)
    (h : pairKey a b = pairKey c d) : a = c ∧ b = d := by
  have h2 : a.data ++ ':' :: b.data = c.data ++ ':' :: d.data := by
    have := congrArg String.data h
    rwa [pairKey_data, pairKey_data] at this
  obtain ⟨e1, e2⟩ := colon_split_inj a.data c.data b.data d.data ha hc h2
  exact ⟨congrArg String.mk e1, congrArg String.mk e2⟩

/-- Every key in a reachable nonce-store state is the pair key of some
issued (nonce, email) pair. -/
theorem mem_runFrom (ops : List StoreOp) : ∀ (s : Finset String) (k : String),
    k ∈ runFrom s ops → k ∈ s ∨ ∃ p ∈ issued ops, k = pairKey p.1 p.2 := by
  induction ops with
  | nil => intro s k h; exact .inl h
  | cons op rest ih =>
    intro s k h
    have h2 := ih (applyOp s op) k h
    cases op with
    | issue n e =>
      rcases h2 with h2 | ⟨p, hp, he⟩
      · have h3 : k = pairKey n e ∨ k ∈ s := by
          simpa [applyOp, NewNonce, Finset.mem_insert] using h2
        rcases h3 with h3 | h3
        · exact .inr ⟨(n, e), by simp [issued], h3⟩
        · exact .inl h3
      · exact .inr ⟨p, by simp [issued]; exact .inr hp, he⟩
    | consume n e =>
      rcases h2 with h2 | ⟨p, hp, he⟩
      · left
        by_cases hm : pairKey n e ∈ s
        · have h3 : k ∈ s.erase (pairKey n e) := by
            simpa [applyOp, ConsumeNonce, hm] using h2
          exact Finset.mem_of_mem_erase h3
        · simpa [applyOp, ConsumeNonce, hm] using h2
      · exact .inr ⟨p, by simpa [issued] using hp, he⟩

/-! ### C1 -/

/-- C1: for every prior store state and every email, issuing a nonce and then
consuming the returned (nonce, email) pair succeeds (nil error) exactly once:
the first `ConsumeNonce` returns the state with the pair removed, and a
second `ConsumeNonce` on that state fails with the `InvalidNonce` kind. -/
theorem newNonce_consume_once (nonces : Finset String) (nonce email : String) :
    ConsumeNonce (NewNonce nonces nonce email).1 (NewNonce nonces nonce email).2 email =
      .ok ((insert (pairKey nonce email) nonces).erase (pairKey nonce email)) ∧
    ConsumeNonce ((insert (pairKey nonce email) nonces).erase (pairKey nonce email))
      (NewNonce nonces nonce email).2 email = .invalidNonce := by
  constructor
  · simp [ConsumeNonce, NewNonce]
  · simp [ConsumeNonce, NewNonce, Finset.not_mem_erase]

/-! ### C2 -/

/-- C2 counterexample: the store joins nonce and email with `":"` without
escaping, so an argument pair that was never issued can still consume a key.
Issue the (reachable, since `GenerateNonce` can output the all-zero hex
string) nonce for email `"b:c"`; then `ConsumeNonce` with the never-issued
argument pair (nonce `"...0:b"`, email `"c"`) does not fail with
`InvalidNonce` as the claim requires, but succeeds and deletes the pair. -/
theorem consume_unissued_cx :
    ("00000000000000000000000000000000:b", "c") ∉
      issued [StoreOp.issue "00000000000000000000000000000000" "b:c"] ∧
    ConsumeNonce (runOps [StoreOp.issue "00000000000000000000000000000000" "b:c"])
        "00000000000000000000000000000000:b" "c" ≠ ConsumeResult.invalidNonce ∧
    ConsumeNonce (runOps [StoreOp.issue "00000000000000000000000000000000" "b:c"])
        "00000000000000000000000000000000:b" "c" = ConsumeResult.ok ∅ := by
  refine ⟨by decide, by decide, by decide⟩

/-- C2 (amended): in every reachable store state, `ConsumeNonce` with an
argument pair that was never issued fails with the `InvalidNonce` kind and
leaves the stored pairs unchanged, provided the consumed nonce and all
issued nonces are colon-free (as the 32-hex-digit outputs of `GenerateNonce`
always are); without that proviso the colon-joined keys can collide, see the
counterexample. -/
theorem consume_unissued (ops : List StoreOp) (nonce email : String)
    (hn : ':' ∉ nonce.data)
    (hops : ∀ p ∈ issued ops, ':' ∉ (p : String × String).1.data)
    (hni : (nonce, email) ∉ issued ops) :
    ConsumeNonce (runOps ops) nonce email = .invalidNonce ∧
    runFrom (runOps ops) [StoreOp.consume nonce email] = runOps ops := by
  have hmem : pairKey nonce email ∉ runOps ops := by
    intro hk
    rcases mem_runFrom ops ∅ _ hk with h | ⟨p, hp, he⟩
    · simp at h
    · obtain ⟨e1, e2⟩ := pairKey_inj hn (hops p hp) he
      rw [e1, e2] at hni
      exact hni hp
  constructor
  · simp [ConsumeNonce, hmem]
  · simp [runFrom, applyOp, ConsumeNonce, hmem]

/-- Witness for the amended C2 at a concrete reachable state. -/
theorem consume_unissued_w :
    ConsumeNonce (runOps [StoreOp.issue "aa" "x"]) "bb" "x" = ConsumeResult.invalidNonce ∧
    runFrom (runOps [StoreOp.issue "aa" "x"]) [StoreOp.consume "bb" "x"] =
      runOps [StoreOp.issue "aa" "x"] :=
  consume_unissued [StoreOp.issue "aa" "x"] "bb" "x" (by decide)
    (by intro p hp; simp [issued] at hp; subst hp; decide) (by decide)

/-! ### Verify: helper lemmas -/

/-- With a passing signature and time check and matching issuer and audience,
`Verify` runs the claim-processing tail. -/
theorem verifyFull_valid (c : ClientS) (nonces : Finset String) (tok : Token)
    (hiss : tok.iss = c.broker) (haud : tok.aud.contains c.clientID = true) :
    verifyFull c nonces tok true true = verifyClaims nonces tok.claims := by
  unfold verifyFull
  rw [hiss, haud]
  simp

/-- Looking up an erased claim yields nothing. -/
theorem claimGet_eraseClaim_self (cs : Claims) (name : String) :
    claimGet (eraseClaim cs name) name = none := by
  induction cs with
  | nil => rfl
  | cons kv rest ih =>
    obtain ⟨k, v⟩ := kv
    by_cases hk : k = name
    · simp only [eraseClaim, List.filter_cons] at *
      simp [hk, ih]
    · simp only [eraseClaim, List.filter_cons] at *
      simp [hk, claimGet, ih]

/-- Erasing one claim leaves the others readable. -/
theorem claimGet_eraseClaim_ne (cs : Claims) (name other : String)
    (h : other ≠ name) : claimGet (eraseClaim cs name) other = claimGet cs other := by
  induction cs with
  | nil => rfl
  | cons kv rest ih =>
    obtain ⟨k, v⟩ := kv
    by_cases hk : k = name
    · subst hk
      simp only [eraseClaim, List.filter_cons] at *
      simp [claimGet, Ne.symm h, ih]
    · simp only [eraseClaim, List.filter_cons] at *
      simp [claimGet, hk, ih]

/-! ### C3 -/

/-- C3: once `jwt.Parse` has accepted the token, a nonce claim that is absent
or empty yields the distinct nonce-missing error, and otherwise an absent or
empty email claim yields the distinct email-missing error; in both cases
`ConsumeNonce` is never called and the nonce set is unchanged (the nonce
check coming first). -/
theorem verify_missing_claim (c : ClientS) (nonces : Finset String) (tok : Token)
    (hiss : tok.iss = c.broker) (haud : tok.aud.contains c.clientID = true)
    (h : goStringAssert (claimGet tok.claims "nonce") = "" ∨
         goStringAssert (claimGet tok.claims "email") = "") :
    verifyFull c nonces tok true true =
      ⟨nonces,
        .err (if goStringAssert (claimGet tok.claims "nonce") = ""
              then .nonceMissing else .emailMissing),
        0⟩ := by
  rw [verifyFull_valid c nonces tok hiss haud]
  by_cases h1 : goStringAssert (claimGet tok.claims "nonce") = ""
  · simp [verifyClaims, h1]
  · rcases h with h | h
    · exact absurd h h1
    · simp [verifyClaims, h1, h]

/-- Witness for C3: a token carrying only an email claim is rejected with the
nonce-missing error, zero `ConsumeNonce` calls, store untouched. -/
theorem verify_missing_claim_w :
    verifyFull clientA ∅
        ⟨"https://broker.portier.io", ["https://app.example"],
         [("email", ClaimValue.str "a@b")]⟩ true true =
      ⟨∅, .err .nonceMissing, 0⟩ := by
  have h := verify_missing_claim clientA ∅
    ⟨"https://broker.portier.io", ["https://app.example"],
     [("email", ClaimValue.str "a@b")]⟩ (by decide) (by decide) (.inl (by decide))
  revert h
  decide

/-! ### C4 -/

/-- C4: for a token that passed validation and carries non-empty nonce and
email claims, `Verify` consumes exactly the pair (nonce claim, email_original
claim) — falling back to the email claim when email_original is absent or
empty — and on success returns the email claim value. -/
theorem verify_consume_pair (c : ClientS) (nonces : Finset String) (tok : Token)
    (hiss : tok.iss = c.broker) (haud : tok.aud.contains c.clientID = true)
    (hn : goStringAssert (claimGet tok.claims "nonce") ≠ "")
    (he : goStringAssert (claimGet tok.claims "email") ≠ "") :
    verifyFull c nonces tok true true =
      (if pairKey (goStringAssert (claimGet tok.claims "nonce"))
            (if goStringAssert (claimGet tok.claims "email_original") = ""
             then goStringAssert (claimGet tok.claims "email")
             else goStringAssert (claimGet tok.claims "email_original")) ∈ nonces
       then ⟨nonces.erase (pairKey (goStringAssert (claimGet tok.claims "nonce"))
               (if goStringAssert (claimGet tok.claims "email_original") = ""
                then goStringAssert (claimGet tok.claims "email")
                else goStringAssert (claimGet tok.claims "email_original"))),
              .ok (goStringAssert (claimGet tok.claims "email")), 1⟩
       else ⟨nonces, .err .invalidSession, 1⟩) := by
  rw [verifyFull_valid c nonces tok hiss haud]
  by_cases hm : pairKey (goStringAssert (claimGet tok.claims "nonce"))
      (if goStringAssert (claimGet tok.claims "email_original") = ""
       then goStringAssert (claimGet tok.claims "email")
       else goStringAssert (claimGet tok.claims "email_original")) ∈ nonces <;>
    simp [verifyClaims, hn, he, ConsumeNonce, hm]

/-- Witness for C4: with distinct `email` and `email_original` claims, the
pair under `email_original` is consumed and the `email` value is returned. -/
theorem verify_consume_pair_w :
    verifyFull clientA {pairKey "n1" "orig@x"}
        ⟨"https://broker.portier.io", ["https://app.example"],
         [("nonce", ClaimValue.str "n1"), ("email", ClaimValue.str "disp@x"),
          ("email_original", ClaimValue.str "orig@x")]⟩ true true =
      ⟨∅, .ok "disp@x", 1⟩ := by
  have h := verify_consume_pair clientA {pairKey "n1" "orig@x"}
    ⟨"https://broker.portier.io", ["https://app.example"],
     [("nonce", ClaimValue.str "n1"), ("email", ClaimValue.str "disp@x"),
      ("email_original", ClaimValue.str "orig@x")]⟩
    (by decide) (by decide) (by decide) (by decide)
  revert h
  decide

/-! ### C10 -/

/-- C10: a nonce or email claim that is present but not a JSON string (or is
the empty string) makes `Verify` behave exactly as if the claim were absent:
the same missing-claim error, no `ConsumeNonce` call, the nonce set
unchanged, and the non-string value neither consumed nor returned. -/
theorem verify_nonstring_claim (c : ClientS) (nonces : Finset String) (tok : Token)
    (name : String) (v : ClaimValue)
    (hiss : tok.iss = c.broker) (haud : tok.aud.contains c.clientID = true)
    (hname : name = "nonce" ∨ name = "email")
    (hv : claimGet tok.claims name = some v)
    (hns : goStringAssert (some v) = "") :
    verifyFull c nonces tok true true =
      verifyFull c nonces { tok with claims := eraseClaim tok.claims name } true true ∧
    verifyFull c nonces tok true true =
      ⟨nonces,
        .err (if goStringAssert (claimGet tok.claims "nonce") = ""
              then .nonceMissing else .emailMissing),
        0⟩ := by
  have hred := verifyFull_valid c nonces tok hiss haud
  have hred2 : verifyFull c nonces { tok with claims := eraseClaim tok.claims name }
      true true = verifyClaims nonces (eraseClaim tok.claims name) :=
    verifyFull_valid c nonces _ hiss haud
  rcases hname with hname | hname
  · subst hname
    have hz : goStringAssert (claimGet tok.claims "nonce") = "" := by rw [hv]; exact hns
    have hz2 : goStringAssert (claimGet (eraseClaim tok.claims "nonce") "nonce") = "" := by
      rw [claimGet_eraseClaim_self]; rfl
    constructor
    · rw [hred, hred2]; simp [verifyClaims, hz, hz2]
    · rw [hred]; simp [verifyClaims, hz]
  · subst hname
    have hz : goStringAssert (claimGet tok.claims "email") = "" := by rw [hv]; exact hns
    have hz2 : goStringAssert (claimGet (eraseClaim tok.claims "email") "email") = "" := by
      rw [claimGet_eraseClaim_self]; rfl
    have hnn : claimGet (eraseClaim tok.claims "email") "nonce" =
        claimGet tok.claims "nonce" :=
      claimGet_eraseClaim_ne tok.claims "email" "nonce" (by decide)
    by_cases h1 : goStringAssert (claimGet tok.claims "nonce") = ""
    · constructor
      · rw [hred, hred2]; simp [verifyClaims, h1, hnn]
      · rw [hred]; simp [verifyClaims, h1]
    · constructor
      · rw [hred, hred2]; simp [verifyClaims, h1, hnn, hz, hz2]
      · rw [hred]; simp [verifyClaims, h1, hz]

/-- Witness for C10: a numeric nonce claim is treated as missing. -/
theorem verify_nonstring_claim_w :
    verifyFull clientA ∅
        ⟨"https://broker.portier.io", ["https://app.example"],
         [("nonce", ClaimValue.num 5), ("email", ClaimValue.str "a@b")]⟩ true true =
      ⟨∅, .err .nonceMissing, 0⟩ := by
  have h := verify_nonstring_claim clientA ∅
    ⟨"https://broker.portier.io", ["https://app.example"],
     [("nonce", ClaimValue.num 5), ("email", ClaimValue.str "a@b")]⟩
    "nonce" (ClaimValue.num 5) (by decide) (by decide) (.inl rfl) (by decide) (by decide)
  have h2 := h.2
  revert h2
  decide

/-! ### C5 -/

/-- Hex encoding doubles the byte count. -/
theorem hexEncodeList_length (bs : List Nat) :
    (hexEncodeList bs).length = 2 * bs.length := by
  induction bs with
  | nil => rfl
  | cons b rest ih =>
    rw [hexEncodeList, List.length_append, ih]
    show 2 + 2 * rest.length = 2 * (rest.length + 1)
    omega

/-- Membership in the lowercase hex alphabet, as a boolean. -/
def isLowerHexDigit (c : Char) : Bool := hexTable.contains c

/-- Reduced nibble indices land in the hex table. -/
theorem isLowerHexDigit_hexDigit (m : Nat) :
    isLowerHexDigit (hexDigit (m % 16)) = true := by
  have h : m % 16 < 16 := Nat.mod_lt _ (by omega)
  revert h
  generalize m % 16 = k
  intro h
  interval_cases k <;> rfl

/-- Every character the hex encoder emits is a lowercase hex digit. -/
theorem hexEncodeList_all (bs : List Nat) :
    (hexEncodeList bs).all isLowerHexDigit = true := by
  induction bs with
  | nil => rfl
  | cons b rest ih =>
    rw [hexEncodeList, List.all_append, ih, Bool.and_true]
    simp only [hexByte, List.all_cons, List.all_nil, Bool.and_true]
    rw [isLowerHexDigit_hexDigit (b / 16), isLowerHexDigit_hexDigit b]
    rfl

/-- C5: for every client, email and parsed authorization endpoint, a
successful `StartAuth` keeps the endpoint scheme, host and path, sets the
query to exactly the seven required parameters with their literal or
configured values, and uses a nonce that is the 32-character lowercase hex
encoding of the 16 random bytes. -/
theorem startAuth_query (c : ClientS) (authURL : GoURL) (email : String)
    (bytes : List Nat) (nonces : Finset String) (h : bytes.length = 16) :
    (startAuth c authURL email bytes nonces).2.scheme = authURL.scheme ∧
    (startAuth c authURL email bytes nonces).2.host = authURL.host ∧
    (startAuth c authURL email bytes nonces).2.path = authURL.path ∧
    (startAuth c authURL email bytes nonces).2.query =
      [("client_id", c.clientID), ("login_hint", email),
       ("nonce", GenerateNonce bytes), ("redirect_uri", c.redirectURI),
       ("response_mode", c.responseMode), ("response_type", "id_token"),
       ("scope", "openid email")] ∧
    (GenerateNonce bytes).length = 32 ∧
    (GenerateNonce bytes).data.all isLowerHexDigit = true := by
  refine ⟨rfl, rfl, rfl, rfl, ?_, hexEncodeList_all bytes⟩
  show (hexEncodeList bytes).length = 32
  rw [hexEncodeList_length, h]

/-- Witness for C5 with the spec example: broker client, endpoint
`https://idp.example/auth`, email `user@x.com`, all-zero RNG bytes. -/
theorem startAuth_query_w :
    (List.replicate 16 0).length = 16 ∧
    (startAuth clientA idpAuthURL "user@x.com" (List.replicate 16 0) ∅).2.path = "/auth" ∧
    (startAuth clientA idpAuthURL "user@x.com" (List.replicate 16 0) ∅).2.query =
      [("client_id", "https://app.example"), ("login_hint", "user@x.com"),
       ("nonce", "00000000000000000000000000000000"),
       ("redirect_uri", "https://app.example/callback/path"),
       ("response_mode", "form_post"), ("response_type", "id_token"),
       ("scope", "openid email")] ∧
    (GenerateNonce (List.replicate 16 0)).length = 32 := by
  have h := startAuth_query clientA idpAuthURL "user@x.com" (List.replicate 16 0) ∅
    (by decide)
  refine ⟨by decide, ?_, ?_, h.2.2.2.2.1⟩
  · rw [h.2.2.1]; rfl
  · rw [h.2.2.2.1]; rfl

/-! ### C6 -/

/-- Writing back the entry that is already stored leaves the cache as it was. -/
theorem cacheUpsert_self {α : Type} (cache : List (String × CacheEntry α))
    (url : String) (e : CacheEntry α) (h : cacheLookup cache url = some e) :
    cacheUpsert cache url e = cache := by
  induction cache with
  | nil => simp [cacheLookup] at h
  | cons kv rest ih =>
    obtain ⟨k, v⟩ := kv
    by_cases hk : k = url
    · simp only [cacheLookup, hk, if_pos] at h
      simp only [cacheUpsert, hk, if_pos]
      rw [Option.some_inj] at h
      rw [h]
    · simp only [cacheLookup, hk, if_neg, ite_false] at h
      simp [cacheUpsert, hk, ih h]

/-- A freshly written entry is what the next lookup finds. -/
theorem cacheLookup_upsert_self {α : Type} (cache : List (String × CacheEntry α))
    (url : String) (e : CacheEntry α) :
    cacheLookup (cacheUpsert cache url e) url = some e := by
  induction cache with
  | nil => simp [cacheUpsert, cacheLookup]
  | cons kv rest ih =>
    obtain ⟨k, v⟩ := kv
    by_cases hk : k = url
    · simp [cacheUpsert, cacheLookup, hk]
    · simp [cacheUpsert, cacheLookup, hk, ih]

/-- C6: (1) while the stored entry for a URL has not expired, `Fetch` returns
its stored data (nil stored error) or stored error without any network call
and without changing the cache; (2) starting from an expired or absent
entry, a successful fetch at `t0` followed by a second fetch at any `t1`
inside the returned lifetime yields the same decoded data with exactly one
network call in total, whatever the second network outcome would have
been. -/
theorem memFetch_cached (α : Type) :
    (∀ (cache : List (String × CacheEntry α)) (url : String) (now : Nat)
       (outcome : FetchOutcome α) (entry : CacheEntry α),
       cacheLookup cache url = some entry → now < entry.expires →
       memFetch cache url now outcome =
         ⟨cache, entry.err,
          (match entry.err with | none => entry.data | some _ => none), 0⟩) ∧
    (∀ (cache : List (String × CacheEntry α)) (url : String) (t0 t1 : Nat)
       (o1 o2 : FetchOutcome α),
       ¬(t0 < ((cacheLookup cache url).getD ⟨none, none, 0⟩).expires) →
       o1.err = none → t1 < t0 + o1.maxAge →
       (memFetch cache url t0 o1).data = some o1.data ∧
       (memFetch cache url t0 o1).netCalls = 1 ∧
       memFetch (memFetch cache url t0 o1).cache url t1 o2 =
         ⟨(memFetch cache url t0 o1).cache, none, some o1.data, 0⟩) := by
  constructor
  · intro cache url now outcome entry hl hf
    rw [memFetch, hl]
    simp only [Option.getD_some]
    rw [if_pos hf, cacheUpsert_self cache url entry hl]
  · intro cache url t0 t1 o1 o2 hexp herr hlt
    have h1 : memFetch cache url t0 o1 =
        ⟨cacheUpsert cache url ⟨some o1.data, none, t0 + o1.maxAge⟩,
         none, some o1.data, 1⟩ := by
      rw [memFetch, if_neg hexp, herr]
    refine ⟨by rw [h1], by rw [h1], ?_⟩
    rw [h1]
    have h2 := cacheLookup_upsert_self cache url
      (⟨some o1.data, none, t0 + o1.maxAge⟩ : CacheEntry α)
    rw [memFetch, h2]
    simp only [Option.getD_some]
    rw [if_pos hlt, cacheUpsert_self _ url _ h2]

/-- Witness for C6: a warm read at time 3 of an entry expiring at 5, and a
cold fetch at time 0 followed by a read at time 1 within the 10ns lifetime,
with a failing second outcome that is never consulted. -/
theorem memFetch_cached_w :
    memFetch [("u", (⟨some "d", none, 5⟩ : CacheEntry String))] "u" 3 ⟨7, none, "z"⟩ =
      ⟨[("u", ⟨some "d", none, 5⟩)], none, some "d", 0⟩ ∧
    (memFetch ([] : List (String × CacheEntry String)) "u" 0 ⟨10, none, "d"⟩).data =
      some "d" ∧
    (memFetch ([] : List (String × CacheEntry String)) "u" 0 ⟨10, none, "d"⟩).netCalls = 1 ∧
    memFetch (memFetch ([] : List (String × CacheEntry String)) "u" 0
        ⟨10, none, "d"⟩).cache "u" 1 ⟨5, some .transport, "x"⟩ =
      ⟨(memFetch ([] : List (String × CacheEntry String)) "u" 0 ⟨10, none, "d"⟩).cache,
       none, some "d", 0⟩ := by
  have ha := (memFetch_cached String).1 [("u", ⟨some "d", none, 5⟩)] "u" 3 ⟨7, none, "z"⟩
    ⟨some "d", none, 5⟩ (by decide) (by decide)
  have hb := (memFetch_cached String).2 [] "u" 0 1 ⟨10, none, "d"⟩ ⟨5, some .transport, "x"⟩
    (by decide) (by decide) (by decide)
  revert ha hb
  decide

/-! ### C7 -/

/-- Values inside the signed 64-bit range are fixed by the wrap. -/
theorem int64wrap_eq_self (x : Int) (h0 : 0 ≤ x) (h1 : x < 9223372036854775808) :
    int64wrap x = x := by
  unfold int64wrap
  rw [Int.emod_eq_of_lt (by omega) (by omega)]
  omega

/-- C7 (amended): `SimpleFetch` returns the 3s backoff exactly when it
returns an error; on success it returns 60s when no parseable max-age is
present or the parsed value is at most 60; it returns the parsed value (in
seconds) when that value is larger than 60 and at most 9223372036 — never a
smaller server value; parsed values above 9223372036 overflow the signed
64-bit nanosecond duration, and the result is then exactly the wrapped
product when the value is below 2^63 and the wrap still exceeds 60s, and
the 60s default otherwise (values at or above 2^63 fail
`strconv.ParseInt` and keep the default, a wrap at or below 60s is not
taken). -/
theorem simpleFetch_lifetime (α : Type) :
    (∀ (resp : HTTPResponse α), (SimpleFetch resp).err.isSome = true →
       (SimpleFetch resp).maxAge = defaultErrMaxAge) ∧
    (∀ (cc : String) (doc : α), parseMaxAge cc = none →
       (SimpleFetch (.ok 200 cc (.ok doc))).maxAge = defaultMaxAge) ∧
    (∀ (cc : String) (doc : α) (n : Nat), parseMaxAge cc = some n → n ≤ 60 →
       (SimpleFetch (.ok 200 cc (.ok doc))).maxAge = defaultMaxAge) ∧
    (∀ (cc : String) (doc : α) (n : Nat), parseMaxAge cc = some n → 60 < n →
       n ≤ 9223372036 →
       (SimpleFetch (.ok 200 cc (.ok doc))).maxAge = (n : Int) * second) ∧
    (∀ (cc : String) (doc : α) (n : Nat), parseMaxAge cc = some n →
       9223372036 < n →
       (SimpleFetch (.ok 200 cc (.ok doc))).maxAge =
         (if n < 9223372036854775808 ∧ int64wrap ((n : Int) * second) > defaultMaxAge
          then int64wrap ((n : Int) * second) else defaultMaxAge)) := by
  refine ⟨?_, ?_, ?_, ?_, ?_⟩
  · intro resp h
    match resp with
    | .failed => rfl
    | .ok code cc body =>
      by_cases hs : code = 200
      · subst hs
        cases body with
        | ok doc => simp [SimpleFetch] at h
        | failed => simp [SimpleFetch]
      · simp [SimpleFetch, hs]
  · intro cc doc hp
    simp [SimpleFetch, hp]
  · intro cc doc n hp hle
    have hS : (SimpleFetch (HTTPResponse.ok 200 cc (DecodeOutcome.ok doc))).maxAge =
        (if n < 9223372036854775808 then
          (if int64wrap ((n : Int) * second) > defaultMaxAge
           then int64wrap ((n : Int) * second) else defaultMaxAge)
         else defaultMaxAge) := by
      simp [SimpleFetch, hp]
    rw [hS, if_pos (by omega)]
    rw [int64wrap_eq_self ((n : Int) * second) (by simp only [second]; omega)
      (by simp only [second]; omega)]
    rw [if_neg (by simp only [second, defaultMaxAge]; omega)]
  · intro cc doc n hp hgt hle
    have hS : (SimpleFetch (HTTPResponse.ok 200 cc (DecodeOutcome.ok doc))).maxAge =
        (if n < 9223372036854775808 then
          (if int64wrap ((n : Int) * second) > defaultMaxAge
           then int64wrap ((n : Int) * second) else defaultMaxAge)
         else defaultMaxAge) := by
      simp [SimpleFetch, hp]
    rw [hS, if_pos (by omega)]
    rw [int64wrap_eq_self ((n : Int) * second) (by simp only [second]; omega)
      (by simp only [second]; omega)]
    rw [if_pos (by simp only [second, defaultMaxAge]; omega)]
  · intro cc doc n hp hgt
    have hS : (SimpleFetch (HTTPResponse.ok 200 cc (DecodeOutcome.ok doc))).maxAge =
        (if n < 9223372036854775808 then
          (if int64wrap ((n : Int) * second) > defaultMaxAge
           then int64wrap ((n : Int) * second) else defaultMaxAge)
         else defaultMaxAge) := by
      simp [SimpleFetch, hp]
    rw [hS]
    by_cases hlt : n < 9223372036854775808
    · by_cases hbig : int64wrap ((n : Int) * second) > defaultMaxAge
      · rw [if_pos hlt, if_pos hbig, if_pos ⟨hlt, hbig⟩]
      · rw [if_pos hlt, if_neg hbig, if_neg (fun h => hbig h.2)]
    · rw [if_neg hlt, if_neg (fun h => hlt h.1)]

/-- Witness for the amended C7, one instance per clause (transport failure,
no header, max-age=30, max-age=120, and both overflow regimes: a wrap that
falls below 60s and keeps the default, and a wrap above 60s that is
returned). -/
theorem simpleFetch_lifetime_w :
    (SimpleFetch (HTTPResponse.failed : HTTPResponse String)).maxAge = defaultErrMaxAge ∧
    (SimpleFetch (HTTPResponse.ok 200 "" (DecodeOutcome.ok "d"))).maxAge = defaultMaxAge ∧
    (SimpleFetch (HTTPResponse.ok 200 "max-age=30" (DecodeOutcome.ok "d"))).maxAge =
      defaultMaxAge ∧
    (SimpleFetch (HTTPResponse.ok 200 "max-age=120" (DecodeOutcome.ok "d"))).maxAge =
      (120 : Int) * second ∧
    (SimpleFetch (HTTPResponse.ok 200 "max-age=9223372037"
        (DecodeOutcome.ok "d"))).maxAge = defaultMaxAge ∧
    (SimpleFetch (HTTPResponse.ok 200 "max-age=18446744134"
        (DecodeOutcome.ok "d"))).maxAge = int64wrap ((18446744134 : Int) * second) ∧
    defaultMaxAge < int64wrap ((18446744134 : Int) * second) := by
  have h := simpleFetch_lifetime String
  have h5a := h.2.2.2.2 "max-age=9223372037" "d" 9223372037 (by decide) (by decide)
  have h5b := h.2.2.2.2 "max-age=18446744134" "d" 18446744134 (by decide) (by decide)
  refine ⟨h.1 .failed (by decide), h.2.1 "" "d" (by decide),
    h.2.2.1 "max-age=30" "d" 30 (by decide) (by decide),
    h.2.2.2.1 "max-age=120" "d" 120 (by decide) (by decide) (by decide), ?_, ?_, by decide⟩
  · revert h5a
    decide
  · revert h5b
    decide

/-- C7 counterexample: with `Cache-Control: max-age=9223372037` the parsed
value exceeds 60 seconds, the fetch succeeds, yet the returned lifetime is
the 60s default, not the parsed value — the int64 nanosecond product
overflows, so the claim "returns the parsed max-age value exactly when it is
larger than 60 seconds" fails. -/
theorem simpleFetch_lifetime_cx :
    parseMaxAge "max-age=9223372037" = some 9223372037 ∧
    (60 : Int) < 9223372037 ∧
    (SimpleFetch (HTTPResponse.ok 200 "max-age=9223372037"
        (DecodeOutcome.ok "d"))).err = none ∧
    (SimpleFetch (HTTPResponse.ok 200 "max-age=9223372037"
        (DecodeOutcome.ok "d"))).maxAge = defaultMaxAge ∧
    defaultMaxAge ≠ (9223372037 : Int) * second := by
  exact ⟨by decide, by decide, by decide, by decide, by decide⟩

/-! ### C8 -/

/-- C8 (amended): every response with a status other than exactly 200 —
including the other 2xx codes — yields the status error and the 3s backoff
with the body never decoded (the result is the same for every body); only
status 200 proceeds to JSON decoding, surfacing the decoded document or the
decode error. -/
theorem simpleFetch_status_only_200 (α : Type) :
    (∀ (code : Nat) (cc : String) (body : DecodeOutcome α), code ≠ 200 →
       SimpleFetch (.ok code cc body) =
         ⟨defaultErrMaxAge, some (.status code), none⟩) ∧
    (∀ (cc : String) (doc : α),
       (SimpleFetch (.ok 200 cc (.ok doc))).err = none ∧
       (SimpleFetch (.ok 200 cc (.ok doc))).data = some doc) ∧
    (∀ (cc : String),
       SimpleFetch (.ok 200 cc (DecodeOutcome.failed : DecodeOutcome α)) =
         ⟨defaultErrMaxAge, some .decode, none⟩) := by
  refine ⟨?_, ?_, ?_⟩
  · intro code cc body h
    simp [SimpleFetch, h]
  · intro cc doc
    constructor <;> simp [SimpleFetch]
  · intro cc
    simp [SimpleFetch]

/-- Witness for the amended C8: a 404 is rejected regardless of body, a 200
decodes. -/
theorem simpleFetch_status_only_200_w :
    SimpleFetch (HTTPResponse.ok 404 "" (DecodeOutcome.ok "d")) =
      ⟨defaultErrMaxAge, some (.status 404), none⟩ ∧
    (SimpleFetch (HTTPResponse.ok 200 "" (DecodeOutcome.ok "d"))).data = some "d" := by
  have h := simpleFetch_status_only_200 String
  exact ⟨h.1 404 "" (DecodeOutcome.ok "d") (by decide), (h.2.1 "" "d").2⟩

/-- C8 counterexample: 201 is in the 2xx success class, yet `SimpleFetch`
returns the status error and the 3s backoff and never decodes the (valid)
body — the code tests `StatusCode != 200`, not the 2xx class. -/
theorem simpleFetch_status_cx :
    (200 ≤ 201 ∧ 201 < 300) ∧
    SimpleFetch (HTTPResponse.ok 201 "" (DecodeOutcome.ok "d")) =
      ⟨defaultErrMaxAge, some (.status 201), none⟩ := by
  exact ⟨by decide, by decide⟩

/-! ### C9 -/

/-- Parse result of the opaque absolute URL `mailto:a@b`. -/
def mailtoURL : GoURL := ⟨"mailto", "a@b", none, "", "", [], "", false⟩

/-- A `url.Parse` oracle for the fixture URLs. -/
def appParse : String → Option GoURL := fun s =>
  if s = "https://broker.portier.io" then some brokerOriginURL
  else if s = "https://app.example/callback/path" then some appRedirectURL
  else if s = "mailto:a@b" then some mailtoURL
  else none

/-- Config with only the redirect URI `https://app.example/callback/path`. -/
def cfgApp : Config := ⟨"", "https://app.example/callback/path", "", 0⟩

/-- Config with the opaque redirect URI `mailto:a@b`. -/
def cfgMailto : Config := ⟨"", "mailto:a@b", "", 0⟩

/-- The client `NewClient` builds from `cfgMailto`. -/
def mailtoClient : ClientS :=
  ⟨"https://broker.portier.io", brokerOriginURL, "mailto:a@b", "mailto:a@b",
    "form_post", 180000000000⟩

/-- C9 (amended): a successful `NewClient` sets the client identifier to
`originOf` of the parsed redirect URI — `scheme://host` (dropping path,
query, fragment and user-info) whenever the URL is hierarchical (empty
`Opaque`), and `scheme:opaque` for opaque absolute URLs — and that
identifier is the `client_id` of every `StartAuth` URL and the audience
every `Verify` requires. -/
theorem newClient_clientID (cfg : Config) (urlParse : String → Option GoURL)
    (c : ClientS) (rurl : GoURL)
    (hok : NewClient cfg urlParse = .ok c)
    (hparse : urlParse cfg.redirectURI = some rurl) :
    c.clientID = originOf rurl ∧
    (rurl.opq = "" → c.clientID = rurl.scheme ++ "://" ++ rurl.host) ∧
    (∀ (authURL : GoURL) (email : String) (bytes : List Nat) (nonces : Finset String),
       ("client_id", c.clientID) ∈ (startAuth c authURL email bytes nonces).2.query) ∧
    (∀ (nonces : Finset String) (tok : Token) (sigOK timeOK : Bool),
       tok.aud.contains c.clientID = false →
       verifyFull c nonces tok sigOK timeOK = ⟨nonces, .err .tokenInvalid, 0⟩) := by
  have hcid : c.clientID = originOf rurl := by
    simp only [NewClient] at hok
    repeat' split at hok
    all_goals try simp_all
    all_goals rw [← hok]
  refine ⟨hcid, ?_, ?_, ?_⟩
  · intro h0
    rw [hcid]
    simp [originOf, h0]
  · intro authURL email bytes nonces
    simp [startAuth]
  · intro nonces tok sigOK timeOK h
    unfold verifyFull
    rw [h]
    simp

/-- Witness for the amended C9 on the spec example: redirect URI
`https://app.example/callback/path` gives identifier `https://app.example`,
which appears as the `client_id` query parameter. -/
theorem newClient_clientID_w :
    NewClient cfgApp appParse = ClientResult.ok clientA ∧
    clientA.clientID = "https://app.example" ∧
    ("client_id", "https://app.example") ∈
      (startAuth clientA idpAuthURL "user@x.com" (List.replicate 16 0) ∅).2.query := by
  have h := newClient_clientID cfgApp appParse clientA appRedirectURL
    (by decide) (by decide)
  refine ⟨by decide, ?_, ?_⟩
  · rw [h.2.1 (by decide)]
    rfl
  · exact h.2.2.1 idpAuthURL "user@x.com" (List.replicate 16 0) ∅

/-- C9 counterexample: `mailto:a@b` is an absolute URL, `NewClient` accepts
it, and the computed identifier is the opaque form `mailto:a@b`, not the
claimed scheme-plus-host origin. -/
theorem newClient_clientID_cx :
    appParse cfgMailto.redirectURI = some mailtoURL ∧
    NewClient cfgMailto appParse = ClientResult.ok mailtoClient ∧
    mailtoClient.clientID ≠ mailtoURL.scheme ++ "://" ++ mailtoURL.host := by
  exact ⟨by decide, by decide, by decide⟩

end Portier
